import Mathlib

/- Shallow embedding of `PublicCode_CTFD/models/Denoiser.py`.

   Tensors are abstracted by a type `T`.  Every tensor primitive the source file
   uses (convolution, transposed convolution, group/layer normalization, linear
   layers, elementwise ops, the einops reshapes, and the external Stripformer
   attention module) is a field of an environment `Env T`, so that theorems
   quantified over `Env` hold for every assignment of weights to layers.
   A `LayerId` value distinguishes the parameter tensors of distinct layers:
   two calls with different ids may behave like two differently-weighted layers,
   two calls with the same id model the very same `nn.Module` instance.

   The environment `shapeEnv` instantiates `T` with the shape of a tensor (its
   list of dimension sizes) and each primitive with the shape/validity rule
   PyTorch enforces when the layer is applied; `none` models a raised runtime
   error.  All shape rules assume non-empty spatial extents, matching PyTorch's
   rejection of empty convolution inputs. -/

/-- Identity of a learnable layer: (section, module index, sub-layer offset).
Sections: 0 = image_proj, 1 = time_emb, 2 = down stack, 3 = up stack,
4 = middle block, 5 = final conv. -/
abbrev LayerId : Type := ℕ × ℕ × ℕ

/-- Tensor primitives consumed by `Denoiser.py`.  Argument conventions:
`conv2d id cin cout k s p d` (kernel `k`, stride `s`, padding `p`, dilation `d`),
`convT2d id cin cout k s p`, `groupNorm id groups channels`,
`linear id inFeatures outFeatures`, `layerNorm id normalizedShape`,
`cat1` is `torch.cat(dim=1)`, `toSeq` is `rearrange 'b c h w -> b (h w) c'`,
`toSpatialOf xref hx` is `rearrange 'b (h w) c -> b c h w'` with `h`,`w` read
off `xref.shape` (the code reads `B, C, H, W = x.shape`), `unsqueeze23` is
`[:, :, None, None]`, `freqEmbed half_dim t` is the sinusoid
`cat(sin(t[:,None]*emb[None,:]), cos(...), dim=1)` of lines 61-63,
`stripformer id channels` the external attention, and `tdefault` the
module-level default timestep tensor `torch.tensor([0]).cuda()` of line 313. -/
structure Env (T : Type) where
  conv2d : LayerId → ℕ → ℕ → ℕ → ℕ → ℕ → ℕ → T → Option T
  convT2d : LayerId → ℕ → ℕ → ℕ → ℕ → ℕ → T → Option T
  groupNorm : LayerId → ℕ → ℕ → T → Option T
  linear : LayerId → ℕ → ℕ → T → Option T
  layerNorm : LayerId → ℕ → T → Option T
  relu : T → Option T
  sigmoid : T → Option T
  mul : T → T → Option T
  add : T → T → Option T
  dropout : LayerId → T → Option T
  cat1 : T → T → Option T
  toSeq : T → Option T
  toSpatialOf : T → T → Option T
  unsqueeze23 : T → Option T
  freqEmbed : ℕ → T → Option T
  stripformer : LayerId → ℕ → T → Option T
  tdefault : T

/-- Swish activation, lines 41-43: `forward(x) = x * sigmoid(x)`. -/
def swishFwd {T : Type} (env : Env T) (x : T) : Option T :=
  (env.sigmoid x).bind fun s => env.mul x s

/-- Shape rule of `nn.Conv2d(cin, cout, k, stride=s, padding=p, dilation=d)`:
requires `cin` input channels, a non-empty input, and an effective kernel no
larger than the padded input; each spatial extent `n` becomes
`(n + 2p - (d(k-1)+1))/s + 1`. -/
def conv2dShape (cin cout k s p d : ℕ) : List ℕ → Option (List ℕ)
  | [b, c, h, w] =>
      if c = cin ∧ 0 < s ∧ 0 < h ∧ 0 < w
          ∧ d * (k - 1) + 1 ≤ h + 2 * p ∧ d * (k - 1) + 1 ≤ w + 2 * p then
        some [b, cout, (h + 2 * p - (d * (k - 1) + 1)) / s + 1,
                       (w + 2 * p - (d * (k - 1) + 1)) / s + 1]
      else none
  | _ => none

/-- Shape rule of `nn.ConvTranspose2d(cin, cout, k, stride=s, padding=p)`:
each spatial extent `n` becomes `(n-1)s + k - 2p`. -/
def convT2dShape (cin cout k s p : ℕ) : List ℕ → Option (List ℕ)
  | [b, c, h, w] =>
      if c = cin ∧ 0 < h ∧ 0 < w
          ∧ 2 * p + 1 ≤ (h - 1) * s + k ∧ 2 * p + 1 ≤ (w - 1) * s + k then
        some [b, cout, (h - 1) * s + k - 2 * p, (w - 1) * s + k - 2 * p]
      else none
  | _ => none

/-- Shape rule of `nn.GroupNorm(groups, channels)` applied to a feature map:
the channel dim must equal `channels`; `channels` must be divisible by
`groups` (PyTorch checks the divisibility when the module is constructed). -/
def groupNormShape (groups channels : ℕ) : List ℕ → Option (List ℕ)
  | [b, c, h, w] => if c = channels ∧ channels % groups = 0 then some [b, c, h, w] else none
  | _ => none

/-- Shape rule of `nn.Linear(inF, outF)`: acts on the last dimension,
replacing `inF` features by `outF`.  Spelled out for the tensor ranks the
source produces (rank 2 for time embeddings, rank 3 for the MLP sequences). -/
def linearShape (inF outF : ℕ) : List ℕ → Option (List ℕ)
  | [b, f] => if f = inF then some [b, outF] else none
  | [b, l, c] => if c = inF then some [b, l, outF] else none
  | _ => none

/-- Shape rule of `nn.LayerNorm(n)`: the last dimension must equal `n`,
spelled out for the tensor ranks the source produces. -/
def layerNormShape (n : ℕ) : List ℕ → Option (List ℕ)
  | [b, f] => if f = n then some [b, f] else none
  | [b, l, c] => if c = n then some [b, l, c] else none
  | _ => none

/-- Shape rule of an elementwise binary op (`+`, `*`) with equal-rank
broadcasting: paired dims must agree or one must be 1. -/
def broadcastShape : List ℕ → List ℕ → Option (List ℕ)
  | [], [] => some []
  | a :: xs, b :: ys =>
      if a = b ∨ a = 1 ∨ b = 1 then (broadcastShape xs ys).map (fun r => max a b :: r)
      else none
  | _, _ => none

/-- Shape rule of `torch.cat((x, s), dim=1)` on feature maps. -/
def cat1Shape : List ℕ → List ℕ → Option (List ℕ)
  | [b, c, h, w], [b2, c2, h2, w2] =>
      if b = b2 ∧ h = h2 ∧ w = w2 then some [b, c + c2, h, w] else none
  | _, _ => none

/-- Shape rule of `rearrange(x, 'b c h w -> b (h w) c')`. -/
def toSeqShape : List ℕ → Option (List ℕ)
  | [b, c, h, w] => some [b, h * w, c]
  | _ => none

/-- Shape rule of `rearrange(hx, 'b (h w) c -> b c h w', h=H, w=W)` where
`H`, `W` are the spatial sizes of the reference tensor (the code destructures
`B, C, H, W = x.shape`); einops checks the sequence length factors as `H*W`. -/
def toSpatialOfShape : List ℕ → List ℕ → Option (List ℕ)
  | [_, _, h, w], [b2, l, c2] => if l = h * w then some [b2, c2, h, w] else none
  | _, _ => none

/-- Shape rule of `te[:, :, None, None]` on a `[batch, features]` tensor. -/
def unsqueeze23Shape : List ℕ → Option (List ℕ)
  | [b, f] => some [b, f, 1, 1]
  | _ => none

/-- Shape rule of the sinusoidal embedding of lines 61-63 applied to a
rank-one timestep batch `[B]` (the documented signature of `t`): the sine and
cosine branches are concatenated into `[B, 2*half_dim]`. -/
def freqEmbedShape (half_dim : ℕ) : List ℕ → Option (List ℕ)
  | [b] => some [b, 2 * half_dim]
  | _ => none

/-- Modelled from the spec: the external Stripformer attention module
(`models.Stripformer_Attention`, not part of this repository's sources) is a
black box that, given a feature map of shape `[B, C, H, W]` with `C` equal to
its construction-time channel count, returns a feature map of the same shape. -/
def stripformerShape (channels : ℕ) : List ℕ → Option (List ℕ)
  | [b, c, h, w] => if c = channels then some [b, c, h, w] else none
  | _ => none

/-- The shape semantics: tensors are their dimension lists, layer identities
are irrelevant (shapes do not depend on weights), and `none` is a raised
PyTorch error.  The default timestep `torch.tensor([0])` has shape `[1]`. -/
def shapeEnv : Env (List ℕ) where
  conv2d := fun _ cin cout k s p d x => conv2dShape cin cout k s p d x
  convT2d := fun _ cin cout k s p x => convT2dShape cin cout k s p x
  groupNorm := fun _ g c x => groupNormShape g c x
  linear := fun _ a b x => linearShape a b x
  layerNorm := fun _ n x => layerNormShape n x
  relu := fun x => some x
  sigmoid := fun x => some x
  mul := broadcastShape
  add := broadcastShape
  dropout := fun _ x => some x
  cat1 := cat1Shape
  toSeq := toSeqShape
  toSpatialOf := toSpatialOfShape
  unsqueeze23 := unsqueeze23Shape
  freqEmbed := freqEmbedShape
  stripformer := fun _ c x => stripformerShape c x
  tdefault := [1]

/-- Lines 354-356.  `get_pad(in_, ksize, stride, atrous)` computes
`out_ = np.ceil(float(in_)/stride)` and then
`int(((out_ - 1) * stride + atrous*(ksize-1) + 1 - in_)/2)`; the final `int()`
truncates the float quotient toward zero, which is `Int.tdiv` on exact halves. -/
def get_pad (in_ ksize stride atrous : ℕ) : ℤ :=
  let out_ : ℤ := ((in_ : ℤ) + (stride : ℤ) - 1) / (stride : ℤ)
  Int.tdiv ((out_ - 1) * (stride : ℤ) + (atrous : ℤ) * ((ksize : ℤ) - 1) + 1 - (in_ : ℤ)) 2

/-- Lines 10-20.  `MLP.__init__(embedding_size, forward_expansion=2)` builds one
3×3 conv `embedding_size → embedding_size` and the `fc` stack
`LayerNorm, Linear(e, 2e), ReLU, Linear(2e, e), LayerNorm`. -/
structure MLP where
  embedding_size : ℕ

/-- Lines 22-34.  `MLP.forward`: `hx = conv(x)`; rearrange to `b (h w) c`;
`hx = fc(hx)`; rearrange back using `H, W` from `x.shape`; `hx = conv(hx)`
(the same conv module, hence the same layer id `base`); return `hx + x`.
The `.to(x.device)` calls are device moves with no tensor semantics. -/
def MLP.fwd {T : Type} (env : Env T) (si : ℕ × ℕ) (base : ℕ) (m : MLP) (x : T) : Option T :=
  let conv := env.conv2d (si.1, si.2, base) m.embedding_size m.embedding_size 3 1 1 1
  (conv x).bind fun hx =>
  (env.toSeq hx).bind fun hx =>
  (env.layerNorm (si.1, si.2, base + 1) m.embedding_size hx).bind fun hx =>
  (env.linear (si.1, si.2, base + 2) m.embedding_size (2 * m.embedding_size) hx).bind fun hx =>
  (env.relu hx).bind fun hx =>
  (env.linear (si.1, si.2, base + 3) (2 * m.embedding_size) m.embedding_size hx).bind fun hx =>
  (env.layerNorm (si.1, si.2, base + 4) m.embedding_size hx).bind fun hx =>
  (env.toSpatialOf x hx).bind fun hx =>
  (conv hx).bind fun hx =>
  env.add hx x

/-- Lines 46-56.  `TimeEmbedding.__init__(n_channels)` records the channel
count and builds `lin1 = Linear(n_channels // 4, n_channels)` and
`lin2 = Linear(n_channels, n_channels)`.  It performs no validation, so no
construction can fail; the structure records the layer dimensions computed. -/
structure TimeEmbedding where
  n_channels : ℕ
  lin1_in : ℕ
  lin1_out : ℕ
  lin2_in : ℕ
  lin2_out : ℕ

/-- Lines 48-56, the constructor body. -/
def TimeEmbedding.init (n : ℕ) : TimeEmbedding :=
  { n_channels := n, lin1_in := n / 4, lin1_out := n, lin2_in := n, lin2_out := n }

/-- Lines 58-69.  `TimeEmbedding.forward(t)`: `half_dim = n_channels // 8`;
`emb = math.log(10000) / (half_dim - 1)` is Python integer arithmetic and
raises `ZeroDivisionError` exactly when `half_dim = 1`; then the sinusoid of
lines 61-63 followed by `lin2(act(lin1(emb)))`. -/
def TimeEmbedding.fwd {T : Type} (env : Env T) (te : TimeEmbedding) (t : T) : Option T :=
  let half_dim := te.n_channels / 8
  if half_dim = 1 then none
  else
    (env.freqEmbed half_dim t).bind fun emb =>
    (env.linear (1, 0, 0) te.lin1_in te.lin1_out emb).bind fun emb =>
    (swishFwd env emb).bind fun emb =>
    env.linear (1, 0, 1) te.lin2_in te.lin2_out emb

/-- Lines 72-108.  `ResidualBlock.__init__(in_channels, out_channels,
time_channels, dropout=0.1, is_noise=True)` builds `norm1 = Normalize(cin)`
and `norm2 = Normalize(cout)` (32 groups, line 38), two 3×3 pad-1 convs, a
1×1 shortcut conv when `cin ≠ cout` (otherwise `Identity`), and, only when
`is_noise`, `time_emb = Linear(time_channels, out_channels)`. -/
structure ResidualBlock where
  in_channels : ℕ
  out_channels : ℕ
  time_channels : ℕ
  is_noise : Bool

/-- Lines 110-126.  `ResidualBlock.forward(x, t)`:
`h = norm1(x)`; `h = conv1(act1(h))`; if `is_noise`,
`h += time_emb(time_act(t))[:, :, None, None]` (applying the layers to a
`None` timestep raises, modelled as `none`); `h = norm2(h)`;
`h = conv2(dropout(act2(h)))`; return `h + shortcut(x)`.
Sub-layer offsets from `base`: 0 norm1, 1 conv1, 2 time_emb, 3 norm2,
4 dropout, 5 conv2, 6 shortcut. -/
def ResidualBlock.fwd {T : Type} (env : Env T) (si : ℕ × ℕ) (base : ℕ)
    (rb : ResidualBlock) (x : T) (t : Option T) : Option T :=
  (env.groupNorm (si.1, si.2, base) 32 rb.in_channels x).bind fun h =>
  (swishFwd env h).bind fun h =>
  (env.conv2d (si.1, si.2, base + 1) rb.in_channels rb.out_channels 3 1 1 1 h).bind fun h =>
  (if rb.is_noise then
      match t with
      | none => none
      | some tv =>
          (swishFwd env tv).bind fun ta =>
          (env.linear (si.1, si.2, base + 2) rb.time_channels rb.out_channels ta).bind fun te =>
          (env.unsqueeze23 te).bind fun te4 =>
          env.add h te4
    else some h).bind fun h =>
  (env.groupNorm (si.1, si.2, base + 3) 32 rb.out_channels h).bind fun h =>
  (swishFwd env h).bind fun h =>
  (env.dropout (si.1, si.2, base + 4) h).bind fun h =>
  (env.conv2d (si.1, si.2, base + 5) rb.out_channels rb.out_channels 3 1 1 1 h).bind fun h =>
  (if rb.in_channels = rb.out_channels then some x
   else env.conv2d (si.1, si.2, base + 6) rb.in_channels rb.out_channels 1 1 0 1 x).bind fun sc =>
  env.add h sc

/-- Lines 129-141.  `DownBlock.__init__(in_channels, out_channels,
time_channels, flag, is_noise=True)`: a ResidualBlock, a Stripformer on
`out_channels`, an MLP on `out_channels`, and the stored integer `flag`. -/
structure DownBlock where
  in_channels : ℕ
  out_channels : ℕ
  time_channels : ℕ
  flag : ℕ
  is_noise : Bool

/-- The `self.res` sub-module of a DownBlock (line 137). -/
def DownBlock.res (b : DownBlock) : ResidualBlock :=
  { in_channels := b.in_channels, out_channels := b.out_channels,
    time_channels := b.time_channels, is_noise := b.is_noise }

/-- Lines 142-148.  `DownBlock.forward(x, t)`: `x = res(x, t)`;
`x = mlp(x)`; `if flag >= 2: x = att(x)`.  Sub-layer bases: res at 0,
mlp at 10, attention at 20. -/
def DownBlock.fwd {T : Type} (env : Env T) (si : ℕ × ℕ) (b : DownBlock)
    (x : T) (t : Option T) : Option T :=
  (ResidualBlock.fwd env si 0 b.res x t).bind fun x =>
  (MLP.fwd env si 10 ⟨b.out_channels⟩ x).bind fun x =>
  if 2 ≤ b.flag then env.stripformer (si.1, si.2, 20) b.out_channels x else some x

/-- Lines 151-165.  `UpBlock.__init__(in_channels, out_channels,
time_channels, flag2, is_noise=True, flag1=0)`: the ResidualBlock takes
`in_channels + out_channels` input channels because the caller concatenates a
skip tensor; Stripformer and MLP act on `out_channels`. -/
structure UpBlock where
  in_channels : ℕ
  out_channels : ℕ
  time_channels : ℕ
  flag1 : ℕ
  flag2 : ℕ
  is_noise : Bool

/-- The `self.res` sub-module of an UpBlock (line 161), built with
`in_channels + out_channels` input channels. -/
def UpBlock.res (b : UpBlock) : ResidualBlock :=
  { in_channels := b.in_channels + b.out_channels, out_channels := b.out_channels,
    time_channels := b.time_channels, is_noise := b.is_noise }

/-- Lines 167-173.  `UpBlock.forward(x, t)`: `x = res(x, t)`;
`if flag1: x = mlp(x)`; `if flag1 and flag2 >= 2: x = att(x)`.
Python truthiness of the integer `flag1` is `flag1 ≠ 0`. -/
def UpBlock.fwd {T : Type} (env : Env T) (si : ℕ × ℕ) (b : UpBlock)
    (x : T) (t : Option T) : Option T :=
  (ResidualBlock.fwd env si 0 b.res x t).bind fun x =>
  (if b.flag1 ≠ 0 then MLP.fwd env si 10 ⟨b.out_channels⟩ x else some x).bind fun x =>
  if b.flag1 ≠ 0 ∧ 2 ≤ b.flag2 then env.stripformer (si.1, si.2, 20) b.out_channels x else some x

/-- Lines 176-193.  `MiddleBlock.__init__(n_channels, time_channels,
is_noise=True)`: `res1`, four dilated 3×3 stride-1 convs with dilations
2, 4, 8, 16 and `padding=get_pad(16, 3, 1, d)`, a Stripformer, and `res2`;
both residual blocks receive the same `is_noise`. -/
structure MiddleBlock where
  n_channels : ℕ
  time_channels : ℕ
  is_noise : Bool

/-- The residual blocks of a MiddleBlock (lines 185 and 193). -/
def MiddleBlock.res (mb : MiddleBlock) : ResidualBlock :=
  { in_channels := mb.n_channels, out_channels := mb.n_channels,
    time_channels := mb.time_channels, is_noise := mb.is_noise }

/-- Lines 195-205.  `MiddleBlock.forward(x, t)`:
`res1 → dia1 (dilation 2) → dia2 (dilation 4) → sf → dia3 (dilation 8) →
dia4 (dilation 16) → res2`.  Sub-layer bases: res1 at 0, dia1-4 at 20-23,
Stripformer at 24, res2 at 30. -/
def MiddleBlock.fwd {T : Type} (env : Env T) (si : ℕ × ℕ) (mb : MiddleBlock)
    (x : T) (t : Option T) : Option T :=
  (ResidualBlock.fwd env si 0 mb.res x t).bind fun x =>
  (env.conv2d (si.1, si.2, 20) mb.n_channels mb.n_channels 3 1 (get_pad 16 3 1 2).toNat 2 x).bind fun x =>
  (env.conv2d (si.1, si.2, 21) mb.n_channels mb.n_channels 3 1 (get_pad 16 3 1 4).toNat 4 x).bind fun x =>
  (env.stripformer (si.1, si.2, 24) mb.n_channels x).bind fun x =>
  (env.conv2d (si.1, si.2, 22) mb.n_channels mb.n_channels 3 1 (get_pad 16 3 1 8).toNat 8 x).bind fun x =>
  (env.conv2d (si.1, si.2, 23) mb.n_channels mb.n_channels 3 1 (get_pad 16 3 1 16).toNat 16 x).bind fun x =>
  ResidualBlock.fwd env si 30 mb.res x t

/-- Lines 208-215.  `Upsample`: `ConvTranspose2d(n, n, (4,4), (2,2), (1,1))`. -/
structure Upsample where
  n_channels : ℕ

/-- Lines 217-219.  `Upsample.forward(x, t)` discards `t` (`_ = t`). -/
def Upsample.fwd {T : Type} (env : Env T) (si : ℕ × ℕ) (u : Upsample)
    (x : T) (_t : Option T) : Option T :=
  env.convT2d (si.1, si.2, 0) u.n_channels u.n_channels 4 2 1 x

/-- Lines 222-229.  `Downsample`: `Conv2d(n, n, (3,3), (2,2), (1,1))`. -/
structure Downsample where
  n_channels : ℕ

/-- Lines 231-233.  `Downsample.forward(x, t)` discards `t` (`_ = t`). -/
def Downsample.fwd {T : Type} (env : Env T) (si : ℕ × ℕ) (d : Downsample)
    (x : T) (_t : Option T) : Option T :=
  env.conv2d (si.1, si.2, 0) d.n_channels d.n_channels 3 2 1 1 x

/-- A module of the down stack: `DownBlock`s interleaved with `Downsample`s. -/
inductive DownModule where
  | block (b : DownBlock)
  | downsample (d : Downsample)

/-- A module of the up stack: `UpBlock`s interleaved with `Upsample`s. -/
inductive UpModule where
  | block (b : UpBlock)
  | upsample (u : Upsample)

/-- Lines 276-278, the inner `for j in range(n_blocks)` loop of one down
resolution level `i`: each iteration appends
`DownBlock(in_channels, out_channels, n_channels*4, is_noise=is_noise, flag=i)`
and then sets `in_channels = out_channels`.  Returns the appended modules and
the final `in_channels`. -/
def mkDownBlocks (tc : ℕ) (noise : Bool) (i out_c : ℕ) : ℕ → ℕ → List DownModule × ℕ
  | 0, in_c => ([], in_c)
  | n + 1, in_c =>
      let rest := mkDownBlocks tc noise i out_c n out_c
      (DownModule.block ⟨in_c, out_c, tc, i, noise⟩ :: rest.1, rest.2)

/-- Lines 267-281, the down-stack construction loop over the enumerated
channel multipliers `[(0, m0), (1, m1), ...]`.  For each level `i`:
`out_channels = n_channels * ch_mults[i]`; `n_blocks` DownBlocks; then a
`Downsample(in_channels)` at every level except the last
(`if i < n_resolutions - 1`).  Returns (modules, final `in_channels`,
final `out_channels` variable). -/
def buildDown (nch tc : ℕ) (noise : Bool) (n_blocks : ℕ) :
    List (ℕ × ℕ) → ℕ → ℕ → List DownModule × ℕ × ℕ
  | [], in_c, out_c => ([], in_c, out_c)
  | (i, m) :: rest, in_c, _ =>
      let out_c := nch * m
      let bl := mkDownBlocks tc noise i out_c n_blocks in_c
      match rest with
      | [] => (bl.1, bl.2, out_c)
      | _ :: _ =>
          let tl := buildDown nch tc noise n_blocks rest bl.2 out_c
          (bl.1 ++ DownModule.downsample ⟨bl.2⟩ :: tl.1, tl.2.1, tl.2.2)

/-- Lines 297-298, the inner `for j in range(n_blocks)` loop of one up
resolution level `i`: every iteration appends
`UpBlock(in_channels, out_channels, n_channels*4, is_noise=is_noise, flag2=i)`
and — unlike the down loop — never updates `in_channels`. -/
def mkUpBlocks (tc : ℕ) (noise : Bool) (i out_c in_c : ℕ) : ℕ → List UpModule
  | 0 => []
  | n + 1 => UpModule.block ⟨in_c, out_c, tc, 0, i, noise⟩ :: mkUpBlocks tc noise i out_c in_c n

/-- Lines 289-305, the up-stack construction loop over the reversed enumerated
channel multipliers `[(n-1, m_{n-1}), ..., (0, m0)]`.  For each level `i`:
`out_channels = n_channels * ch_mults[i]`; `n_blocks` UpBlocks (with a fixed
`in_channels`); then `in_channels = n_channels * (ch_mults[i-1] if i >= 1 else 1)`
(the head of the remaining reversed list is `(i-1, ch_mults[i-1])`) and the
channel-reduction `UpBlock(..., flag1=1, flag2=i)`; then `in_channels =
out_channels` and an `Upsample(in_channels)` at every level except the last
(`if i > 0`).  Returns (modules, final `in_channels`). -/
def buildUp (nch tc : ℕ) (noise : Bool) (n_blocks : ℕ) :
    List (ℕ × ℕ) → ℕ → List UpModule × ℕ
  | [], in_c => ([], in_c)
  | (i, m) :: rest, in_c =>
      let out_c := nch * m
      let bl := mkUpBlocks tc noise i out_c in_c n_blocks
      let red_in := nch * (match rest with | (_, m2) :: _ => m2 | [] => 1)
      let red : UpModule := UpModule.block ⟨red_in, out_c, tc, 1, i, noise⟩
      match rest with
      | [] => (bl ++ [red], out_c)
      | _ :: _ =>
          let tl := buildUp nch tc noise n_blocks rest out_c
          (bl ++ red :: UpModule.upsample ⟨out_c⟩ :: tl.1, tl.2)

/-- Lines 236-311.  The constructed `DenoiserUNet`: the image projection
conv (`input_channels → n_channels`), the optional TimeEmbedding
(`n_channels*4`, only when `is_noise`), the down stack, the middle block
(constructed with `is_noise=False`, line 287), the up stack, and the final
conv (`final_in → output_channels`). -/
structure DenoiserUNet where
  input_channels : ℕ
  output_channels : ℕ
  n_channels : ℕ
  is_noise : Bool
  time_emb : Option TimeEmbedding
  down : List DownModule
  middle : MiddleBlock
  up : List UpModule
  final_in : ℕ

/-- Lines 241-311.  `DenoiserUNet.__init__(input_channels=2,
output_channels=1, n_channels=32, ch_mults=(1,2,2,4), n_blocks=2,
is_noise=True)`: builds the down stack over `ch_mults` enumerated in order
(initial `in_channels = out_channels = n_channels`), the middle block on the
final `out_channels` with `is_noise=False`, the up stack over the reversed
enumeration (initial `in_channels = out_channels`), and the final conv on the
`in_channels` left by the up loop. -/
def buildUNet (input_channels output_channels n_channels : ℕ) (ch_mults : List ℕ)
    (n_blocks : ℕ) (is_noise : Bool) : DenoiserUNet :=
  { input_channels := input_channels
    output_channels := output_channels
    n_channels := n_channels
    is_noise := is_noise
    time_emb := if is_noise then some (TimeEmbedding.init (n_channels * 4)) else none
    down := (buildDown n_channels (n_channels * 4) is_noise n_blocks
              ch_mults.enum n_channels n_channels).1
    middle := { n_channels := (buildDown n_channels (n_channels * 4) is_noise n_blocks
                  ch_mults.enum n_channels n_channels).2.2,
                time_channels := n_channels * 4,
                is_noise := false }
    up := (buildUp n_channels (n_channels * 4) is_noise n_blocks
            ch_mults.enum.reverse
            (buildDown n_channels (n_channels * 4) is_noise n_blocks
              ch_mults.enum n_channels n_channels).2.2).1
    final_in := (buildUp n_channels (n_channels * 4) is_noise n_blocks
                  ch_mults.enum.reverse
                  (buildDown n_channels (n_channels * 4) is_noise n_blocks
                    ch_mults.enum n_channels n_channels).2.2).2 }

/-- Lines 329-333, the down-stack half of `forward`: `for m in self.down:
x = m(x, t); h.append(x)`.  The skip stack `h` is kept most-recent-first, so
`append` is cons and `pop()` takes the head.  The index `k` is the position of
the module in the stack, used only as its layer identity. -/
def runDown {T : Type} (env : Env T) :
    List DownModule → T → Option T → List T → ℕ → Option (T × List T)
  | [], x, _, h, _ => some (x, h)
  | m :: ms, x, t, h, k =>
      (match m with
       | DownModule.block b => DownBlock.fwd env (2, k) b x t
       | DownModule.downsample d => Downsample.fwd env (2, k) d x t).bind fun x2 =>
      runDown env ms x2 t (x2 :: h) (k + 1)

/-- Lines 338-350, the up-stack half of `forward`: Upsamples are applied
directly; every other module pops one skip tensor `s = h.pop()` (popping an
empty list is an `IndexError`, modelled as `none`), concatenates it
channel-wise (`torch.cat((x, s), dim=1)`), and applies the module. -/
def runUp {T : Type} (env : Env T) :
    List UpModule → T → Option T → List T → ℕ → Option (T × List T)
  | [], x, _, h, _ => some (x, h)
  | UpModule.upsample u :: ms, x, t, h, k =>
      (Upsample.fwd env (3, k) u x t).bind fun x2 =>
      runUp env ms x2 t h (k + 1)
  | UpModule.block b :: ms, x, t, h, k =>
      match h with
      | [] => none
      | s :: h2 =>
          (env.cat1 x s).bind fun xc =>
          (UpBlock.fwd env (3, k) b xc t).bind fun x2 =>
          runUp env ms x2 t h2 (k + 1)

/-- Lines 313-351.  `DenoiserUNet.forward(x, t=torch.tensor([0]).cuda())`:
an omitted timestep (`targ = none`) falls back to the module-level default
tensor; when `is_noise` the timestep is embedded, otherwise `t = None`
regardless of the argument; then image projection, the down stack with the
skip stack seeded `h = [x]`, the middle block, the up stack, and
`final(act(x))`. -/
def DenoiserUNet.fwd {T : Type} (env : Env T) (net : DenoiserUNet)
    (x : T) (targ : Option T) : Option T :=
  let t0 := targ.getD env.tdefault
  (match net.is_noise, net.time_emb with
   | true, some te => (TimeEmbedding.fwd env te t0).map some
   | true, none => none
   | false, _ => some none).bind fun t =>
  (env.conv2d (0, 0, 0) net.input_channels net.n_channels 3 1 1 1 x).bind fun x =>
  (runDown env net.down x t [x] 0).bind fun p =>
  (MiddleBlock.fwd env (4, 0) net.middle p.1 t).bind fun x =>
  (runUp env net.up x t p.2 0).bind fun q =>
  (swishFwd env q.1).bind fun x =>
  env.conv2d (5, 0, 0) net.final_in net.output_channels 3 1 1 1 x

/-- Number of skip-stack pops an up-stack performs: one per module that is
not an `Upsample` (lines 339-350). -/
def upPops : List UpModule → ℕ
  | [] => 0
  | UpModule.block _ :: ms => upPops ms + 1
  | UpModule.upsample _ :: ms => upPops ms

/-- Popping one skip per non-Upsample module, a successful up-stack run
consumes exactly `upPops ms` entries of the skip stack. -/
theorem runUp_stack_length {T : Type} (env : Env T) :
    ∀ (ms : List UpModule) (x : T) (t : Option T) (h : List T) (k : ℕ) (y : T) (h2 : List T),
      runUp env ms x t h k = some (y, h2) → h.length = upPops ms + h2.length := by
  intro ms
  induction ms with
  | nil =>
      intro x t h k y h2 hr
      simp only [runUp, Option.some.injEq, Prod.mk.injEq] at hr
      simp [upPops, hr.2]
  | cons m ms ih =>
      intro x t h k y h2 hr
      cases m with
      | upsample u =>
          simp only [runUp, Option.bind_eq_some] at hr
          obtain ⟨x2, _, hrest⟩ := hr
          simpa [upPops] using ih x2 t h (k + 1) y h2 hrest
      | block b =>
          cases h with
          | nil => simp [runUp] at hr
          | cons s h3 =>
              simp only [runUp, Option.bind_eq_some] at hr
              obtain ⟨xc, _, x2, _, hrest⟩ := hr
              have := ih x2 t h3 (k + 1) y h2 hrest
              simp only [upPops, List.length_cons]
              omega

/-- Pushing one skip per module, a successful down-stack run grows the skip
stack by exactly the number of modules. -/
theorem runDown_stack_length {T : Type} (env : Env T) :
    ∀ (ms : List DownModule) (x : T) (t : Option T) (h : List T) (k : ℕ) (y : T) (h2 : List T),
      runDown env ms x t h k = some (y, h2) → h2.length = ms.length + h.length := by
  intro ms
  induction ms with
  | nil =>
      intro x t h k y h2 hr
      simp only [runDown, Option.some.injEq, Prod.mk.injEq] at hr
      simp [hr.2]
  | cons m ms ih =>
      intro x t h k y h2 hr
      simp only [runDown, Option.bind_eq_some] at hr
      obtain ⟨x2, _, hrest⟩ := hr
      have := ih x2 t (x2 :: h) (k + 1) y h2 hrest
      simp only [List.length_cons] at this
      simp only [List.length_cons]
      omega

/-- The inner down loop appends exactly `n_blocks` modules. -/
theorem mkDownBlocks_length (tc : ℕ) (noise : Bool) (i out_c : ℕ) :
    ∀ (n in_c : ℕ), (mkDownBlocks tc noise i out_c n in_c).1.length = n := by
  intro n
  induction n with
  | zero => intro in_c; simp [mkDownBlocks]
  | succ n ih => intro in_c; simp [mkDownBlocks, ih]

/-- The down stack over a non-empty level list has
`levels * (n_blocks + 1) - 1` modules (`n_blocks` blocks per level plus a
Downsample after every level except the last). -/
theorem buildDown_length (nch tc : ℕ) (noise : Bool) (nb : ℕ) :
    ∀ (L : List (ℕ × ℕ)) (ic oc : ℕ), L ≠ [] →
      (buildDown nch tc noise nb L ic oc).1.length + 1 = L.length * (nb + 1) := by
  intro L
  induction L with
  | nil => intro ic oc hne; exact absurd rfl hne
  | cons p rest ih =>
      intro ic oc _
      obtain ⟨i, m⟩ := p
      cases rest with
      | nil =>
          simp [buildDown, mkDownBlocks_length]
      | cons q rest2 =>
          obtain ⟨iq, mq⟩ := q
          have ihr := ih (mkDownBlocks tc noise i (nch * m) nb ic).2 (nch * m) (by simp)
          have h1 : (buildDown nch tc noise nb ((i, m) :: (iq, mq) :: rest2) ic oc).1
              = (mkDownBlocks tc noise i (nch * m) nb ic).1
                ++ DownModule.downsample ⟨(mkDownBlocks tc noise i (nch * m) nb ic).2⟩
                   :: (buildDown nch tc noise nb ((iq, mq) :: rest2)
                        (mkDownBlocks tc noise i (nch * m) nb ic).2 (nch * m)).1 := rfl
          rw [h1]
          simp only [List.length_append, List.length_cons, mkDownBlocks_length] at ihr ⊢
          simp only [Nat.add_mul, Nat.one_mul] at ihr ⊢
          omega

/-- The inner up loop appends exactly `n_blocks` UpBlocks, all pops. -/
theorem mkUpBlocks_pops (tc : ℕ) (noise : Bool) (i out_c in_c : ℕ) :
    ∀ n, upPops (mkUpBlocks tc noise i out_c in_c n) = n := by
  intro n
  induction n with
  | zero => simp [mkUpBlocks, upPops]
  | succ n ih => simp [mkUpBlocks, upPops, ih]

/-- Pop counts add over concatenation of up-stack segments. -/
theorem upPops_append : ∀ (l1 l2 : List UpModule), upPops (l1 ++ l2) = upPops l1 + upPops l2 := by
  intro l1
  induction l1 with
  | nil => intro l2; simp [upPops]
  | cons m ms ih =>
      intro l2
      cases m with
      | block b => simp [upPops, ih]; omega
      | upsample u => simp [upPops, ih]

/-- The up stack pops `levels * (n_blocks + 1)` skips: `n_blocks` UpBlocks
plus one channel-reduction UpBlock per level; Upsamples pop nothing. -/
theorem buildUp_pops (nch tc : ℕ) (noise : Bool) (nb : ℕ) :
    ∀ (L : List (ℕ × ℕ)) (ic : ℕ),
      upPops (buildUp nch tc noise nb L ic).1 = L.length * (nb + 1) := by
  intro L
  induction L with
  | nil => intro ic; simp [buildUp, upPops]
  | cons p rest ih =>
      intro ic
      obtain ⟨i, m⟩ := p
      cases rest with
      | nil =>
          simp [buildUp, upPops_append, mkUpBlocks_pops, upPops]
      | cons q rest2 =>
          obtain ⟨iq, mq⟩ := q
          have ihr := ih (nch * m)
          have h1 : (buildUp nch tc noise nb ((i, m) :: (iq, mq) :: rest2) ic).1
              = mkUpBlocks tc noise i (nch * m) ic nb
                ++ UpModule.block ⟨nch * mq, nch * m, tc, 1, i, noise⟩
                   :: UpModule.upsample ⟨nch * m⟩
                   :: (buildUp nch tc noise nb ((iq, mq) :: rest2) (nch * m)).1 := rfl
          rw [h1, upPops_append, mkUpBlocks_pops]
          simp only [upPops, List.length_cons] at ihr ⊢
          simp only [Nat.add_mul, Nat.one_mul] at ihr ⊢
          omega

/-- C1: the spec claims `DenoiserUNet.forward` returns a `[B, output_channels,
H, W]` tensor for every valid configuration, and in particular succeeds with
the default configuration (base_channels=32, channel multipliers [1,2,2,4],
blocks_per_resolution=2, conditioning enabled) on a [1,2,64,64] input.  The
code violates this: the up-stack construction loop never updates `in_channels`
inside its inner `for j in range(n_blocks)` loop (lines 297-298), so the
second UpBlock of resolution level 2 is built expecting 128+64=192 input
channels while at run time it receives only 64+64=128 after concatenating its
skip, and its GroupNorm raises.  The shape semantics of that forward call
therefore evaluates to `none` (a raised error). -/
theorem denoiser_default_config_forward_raises :
    DenoiserUNet.fwd shapeEnv (buildUNet 2 1 32 [1, 2, 2, 4] 2 true) [1, 2, 64, 64] (some [1])
      = none := by decide

/-- C2: in every `DenoiserUNet`, the number of skip-stack pushes (one after
the image projection plus one per down-stack module, Downsamples included)
equals the number of pops (one per up-stack module that is not an Upsample);
both equal `n_resolutions * (n_blocks + 1)`, and whenever the down and up
loops complete, the skip stack is empty afterwards. -/
theorem skip_push_pop_symmetry (inC outC nch nb : ℕ) (noise : Bool) (mults : List ℕ)
    (hne : mults ≠ []) :
    1 + (buildUNet inC outC nch mults nb noise).down.length = mults.length * (nb + 1)
    ∧ upPops (buildUNet inC outC nch mults nb noise).up = mults.length * (nb + 1)
    ∧ ∀ (T : Type) (env : Env T) (x xm x2 y : T) (t : Option T) (h h2 : List T),
        runDown env (buildUNet inC outC nch mults nb noise).down x t [x] 0 = some (xm, h) →
        runUp env (buildUNet inC outC nch mults nb noise).up x2 t h 0 = some (y, h2) →
        h2 = [] := by
  have hl : mults.enum.length = mults.length := List.enum_length
  have he : mults.enum ≠ [] := by
    intro h0
    rw [h0] at hl
    simp only [List.length_nil] at hl
    exact hne (List.length_eq_zero.mp hl.symm)
  have hdl := buildDown_length nch (nch * 4) noise nb mults.enum nch nch he
  rw [hl] at hdl
  have hup := buildUp_pops nch (nch * 4) noise nb mults.enum.reverse
    (buildDown nch (nch * 4) noise nb mults.enum nch nch).2.2
  rw [List.length_reverse, hl] at hup
  have c1 : 1 + (buildUNet inC outC nch mults nb noise).down.length = mults.length * (nb + 1) := by
    show 1 + (buildDown nch (nch * 4) noise nb mults.enum nch nch).1.length
        = mults.length * (nb + 1)
    omega
  have c2 : upPops (buildUNet inC outC nch mults nb noise).up = mults.length * (nb + 1) := by
    show upPops (buildUp nch (nch * 4) noise nb mults.enum.reverse
        (buildDown nch (nch * 4) noise nb mults.enum nch nch).2.2).1 = mults.length * (nb + 1)
    exact hup
  refine ⟨c1, c2, ?_⟩
  intro T env x xm x2 y t h h2 hrd hru
  have hd := runDown_stack_length env _ x t [x] 0 xm h hrd
  have hu := runUp_stack_length env _ x2 t h 0 y h2 hru
  rw [c2] at hu
  simp only [List.length_singleton] at hd
  have : h2.length = 0 := by omega
  exact List.length_eq_zero.mp this

/-- Witness for C2 at the concrete configuration nch=32, ch_mults=[1,1],
n_blocks=1: the nonemptiness hypothesis holds and the symmetry follows. -/
theorem skip_push_pop_symmetry_witness :
    (([1, 1] : List ℕ) ≠ [])
    ∧ (1 + (buildUNet 2 1 32 [1, 1] 1 false).down.length = ([1, 1] : List ℕ).length * (1 + 1)
       ∧ upPops (buildUNet 2 1 32 [1, 1] 1 false).up = ([1, 1] : List ℕ).length * (1 + 1)
       ∧ ∀ (T : Type) (env : Env T) (x xm x2 y : T) (t : Option T) (h h2 : List T),
          runDown env (buildUNet 2 1 32 [1, 1] 1 false).down x t [x] 0 = some (xm, h) →
          runUp env (buildUNet 2 1 32 [1, 1] 1 false).up x2 t h 0 = some (y, h2) →
          h2 = []) :=
  ⟨by decide, skip_push_pop_symmetry 2 1 32 1 false [1, 1] (by decide)⟩

/-- C3, counterexample: the claim says calling `forward` with a timestep on a
conditioning-disabled model, or without one on a conditioning-enabled model,
raises an error.  Neither does: with `is_noise=False` and a supplied timestep
the forward pass completes and returns a [1,1,2,2] tensor, and with
`is_noise=True` and no timestep it silently uses the module-level default
`torch.tensor([0])` and also completes. -/
theorem forward_timestep_mismatch_silently_accepted :
    DenoiserUNet.fwd shapeEnv (buildUNet 2 1 32 [1, 1] 1 false) [1, 2, 2, 2] (some [1])
      = some [1, 1, 2, 2]
    ∧ DenoiserUNet.fwd shapeEnv (buildUNet 2 1 32 [1, 1] 1 true) [1, 2, 2, 2] none
      = some [1, 1, 2, 2] :=
  ⟨by decide, by decide⟩

/-- C3, amended: on a conditioning-disabled model, `forward` silently discards
the timestep argument (line 323 replaces `t` with `None` before any block
runs), so passing a timestep is indistinguishable from omitting it; on a
conditioning-enabled model, omitting the timestep silently substitutes the
module-level default tensor `torch.tensor([0]).cuda()` rather than raising. -/
theorem forward_timestep_silently_discarded_or_defaulted {T : Type} (env : Env T)
    (inC outC nch : ℕ) (mults : List ℕ) (nb : ℕ) (x ts : T) :
    (DenoiserUNet.fwd env (buildUNet inC outC nch mults nb false) x (some ts)
       = DenoiserUNet.fwd env (buildUNet inC outC nch mults nb false) x none)
    ∧ (DenoiserUNet.fwd env (buildUNet inC outC nch mults nb true) x none
       = DenoiserUNet.fwd env (buildUNet inC outC nch mults nb true) x (some env.tdefault)) :=
  ⟨rfl, rfl⟩

/-- C5: `MiddleBlock.forward` applies, in order, ResidualBlock → dilated conv
(dilation 2) → dilated conv (dilation 4) → attention → dilated conv
(dilation 8) → dilated conv (dilation 16) → ResidualBlock (the paddings
`get_pad(16,3,1,d)` evaluate to 2, 4, 8, 16); `DenoiserUNet.__init__`
constructs its middle block with `is_noise=False` (line 287), whose two
residual blocks therefore carry `is_noise=false`, and a residual block with
`is_noise=false` never reads its conditioning argument. -/
theorem middle_block_pipeline_order_and_unconditioned (inC outC nch : ℕ)
    (mults : List ℕ) (nb : ℕ) (noise : Bool) :
    ((buildUNet inC outC nch mults nb noise).middle.is_noise = false
      ∧ (buildUNet inC outC nch mults nb noise).middle.time_channels = nch * 4)
    ∧ (∀ (T : Type) (env : Env T) (si : ℕ × ℕ) (n tc2 : ℕ) (x : T) (t : Option T),
        MiddleBlock.fwd env si ⟨n, tc2, false⟩ x t =
          (ResidualBlock.fwd env si 0 ⟨n, n, tc2, false⟩ x t).bind fun x1 =>
          (env.conv2d (si.1, si.2, 20) n n 3 1 2 2 x1).bind fun x2 =>
          (env.conv2d (si.1, si.2, 21) n n 3 1 4 4 x2).bind fun x3 =>
          (env.stripformer (si.1, si.2, 24) n x3).bind fun x4 =>
          (env.conv2d (si.1, si.2, 22) n n 3 1 8 8 x4).bind fun x5 =>
          (env.conv2d (si.1, si.2, 23) n n 3 1 16 16 x5).bind fun x6 =>
          ResidualBlock.fwd env si 30 ⟨n, n, tc2, false⟩ x6 t)
    ∧ (∀ (T : Type) (env : Env T) (si : ℕ × ℕ) (base cin cout tc2 : ℕ) (x : T)
        (t1 t2 : Option T),
        ResidualBlock.fwd env si base ⟨cin, cout, tc2, false⟩ x t1
          = ResidualBlock.fwd env si base ⟨cin, cout, tc2, false⟩ x t2) :=
  ⟨⟨rfl, rfl⟩, fun _ _ _ _ _ _ _ => rfl, fun _ _ _ _ _ _ _ _ _ _ => rfl⟩

/-- C10: for every `DenoiserUNet` constructed with conditioning disabled
(`is_noise=False`), the output of `forward` is independent of the timestep
argument, for every assignment of weights to layers (every environment):
line 323 replaces `t` with `None` before any block runs, and no block of an
`is_noise=False` model reads the conditioning argument. -/
theorem forward_independent_of_timestep_when_unconditioned {T : Type} (env : Env T)
    (inC outC nch : ℕ) (mults : List ℕ) (nb : ℕ) (x : T) (t1 t2 : Option T) :
    DenoiserUNet.fwd env (buildUNet inC outC nch mults nb false) x t1
      = DenoiserUNet.fwd env (buildUNet inC outC nch mults nb false) x t2 := rfl

/-- Helper: a 3×3 stride-1 convolution whose padding equals its dilation
preserves the spatial extent of any non-empty feature map. -/
theorem conv2dShape_pad_eq_dilation (C B H W p : ℕ) (hH : 1 ≤ H) (hW : 1 ≤ W) :
    conv2dShape C C 3 1 p p [B, C, H, W] = some [B, C, H, W] := by
  simp only [conv2dShape]
  rw [if_pos ⟨trivial, by omega, by omega, by omega, by omega, by omega⟩]
  have e1 : (H + 2 * p - (p * (3 - 1) + 1)) / 1 + 1 = H := by omega
  have e2 : (W + 2 * p - (p * (3 - 1) + 1)) / 1 + 1 = W := by omega
  rw [e1, e2]

/-- Helper: elementwise broadcasting of a shape against itself succeeds. -/
theorem broadcastShape_self : ∀ (xs : List ℕ), broadcastShape xs xs = some xs := by
  intro xs
  induction xs with
  | nil => rfl
  | cons a l ih => simp [broadcastShape, ih]

/-- C4, counterexample: the claim says the TimeEmbedding constructor rejects
every channel count with `half_dim = n_channels // 8 ≤ 1`.  It rejects
nothing: `__init__` (lines 48-56) only records the channel count and builds
two Linear layers, so construction with `n_channels = 8` (`half_dim = 1`)
completes, and the division by zero surfaces only when `forward` is called. -/
theorem time_embedding_constructor_accepts_half_dim_one :
    TimeEmbedding.init 8
      = { n_channels := 8, lin1_in := 2, lin1_out := 8, lin2_in := 8, lin2_out := 8 }
    ∧ TimeEmbedding.fwd shapeEnv (TimeEmbedding.init 8) [1] = none :=
  ⟨rfl, rfl⟩

/-- C4, amended: the constructor performs no validation and accepts every
channel count; the `half_dim ≤ 1` hazard surfaces at forward time instead:
for every `n_channels` with `n_channels // 8 = 1`, `forward` raises
(`ZeroDivisionError` in `math.log(10000) / (half_dim - 1)`), while for
channel counts divisible by 8 with `half_dim ≥ 2` (as in every use inside
`DenoiserUNet`, where `n_channels` is `base_channels * 4`), `forward`
returns a `[B, n_channels]` embedding. -/
theorem time_embedding_no_constructor_validation (n B : ℕ) (ts : List ℕ) :
    (TimeEmbedding.init n).n_channels = n
    ∧ (n / 8 = 1 → TimeEmbedding.fwd shapeEnv (TimeEmbedding.init n) ts = none)
    ∧ (8 ∣ n → 2 ≤ n / 8 →
        TimeEmbedding.fwd shapeEnv (TimeEmbedding.init n) [B] = some [B, n]) := by
  refine ⟨rfl, ?_, ?_⟩
  · intro h1
    simp [TimeEmbedding.fwd, TimeEmbedding.init, h1]
  · intro hdvd hge
    obtain ⟨k, rfl⟩ := hdvd
    have h8 : 8 * k / 8 = k := by omega
    have h4 : 8 * k / 4 = 2 * k := by omega
    have hk1 : ¬ k = 1 := by omega
    simp [TimeEmbedding.fwd, TimeEmbedding.init, shapeEnv, freqEmbedShape, linearShape,
      swishFwd, broadcastShape, h8, h4, hk1]

/-- Witness for C4's amended statement at `n_channels = 32` (`half_dim = 4`),
the value every default `DenoiserUNet` uses. -/
theorem time_embedding_no_constructor_validation_witness :
    ((8 ∣ 32) ∧ 2 ≤ 32 / 8)
    ∧ TimeEmbedding.fwd shapeEnv (TimeEmbedding.init 32) [1] = some [1, 32] :=
  ⟨⟨by decide, by decide⟩,
    (time_embedding_no_constructor_validation 32 1 [1]).2.2 (by decide) (by decide)⟩

/-- C6: `get_pad(16, 3, 1, d)` equals `d` for every dilation `d` in
{2, 4, 8, 16} used by MiddleBlock, and a 3×3 stride-1 convolution with
padding `get_pad(16,3,1,d)` and dilation `d` preserves the exact spatial
size of every non-empty input, even though the reference input size inside
the padding computation is hard-coded to 16. -/
theorem middle_dilated_padding_preserves_size (d : ℕ) (hd : d ∈ ([2, 4, 8, 16] : List ℕ)) :
    get_pad 16 3 1 d = (d : ℤ)
    ∧ ∀ (B C H W : ℕ), 1 ≤ H → 1 ≤ W →
        conv2dShape C C 3 1 (get_pad 16 3 1 d).toNat d [B, C, H, W] = some [B, C, H, W] := by
  fin_cases hd
  · exact ⟨by decide, fun B C H W hH hW => conv2dShape_pad_eq_dilation C B H W 2 hH hW⟩
  · exact ⟨by decide, fun B C H W hH hW => conv2dShape_pad_eq_dilation C B H W 4 hH hW⟩
  · exact ⟨by decide, fun B C H W hH hW => conv2dShape_pad_eq_dilation C B H W 8 hH hW⟩
  · exact ⟨by decide, fun B C H W hH hW => conv2dShape_pad_eq_dilation C B H W 16 hH hW⟩

/-- Witness for C6 at dilation 2 on a [1,128,8,8] feature map (the deepest
resolution of the default configuration). -/
theorem middle_dilated_padding_preserves_size_witness :
    ((2 : ℕ) ∈ ([2, 4, 8, 16] : List ℕ) ∧ (1 : ℕ) ≤ 8)
    ∧ conv2dShape 128 128 3 1 (get_pad 16 3 1 2).toNat 2 [1, 128, 8, 8]
        = some [1, 128, 8, 8] :=
  ⟨⟨by decide, by decide⟩,
    (middle_dilated_padding_preserves_size 2 (by decide)).2 1 128 8 8 (by decide) (by decide)⟩

/-- C7: `DownBlock.forward` runs its ResidualBlock, then its MLP mixer, then
attention iff its depth flag is ≥ 2; `UpBlock.forward` runs its ResidualBlock
(built with `in_channels + out_channels` input channels) on the concatenated
input, then the MLP mixer iff `flag1` is set, and attention iff `flag1` is set
and `flag2 ≥ 2`. -/
theorem down_up_block_gating {T : Type} (env : Env T) (si : ℕ × ℕ)
    (db : DownBlock) (ub : UpBlock) (x y : T) (t : Option T) :
    (2 ≤ db.flag → DownBlock.fwd env si db x t =
        (ResidualBlock.fwd env si 0 db.res x t).bind fun a =>
        (MLP.fwd env si 10 ⟨db.out_channels⟩ a).bind fun b =>
        env.stripformer (si.1, si.2, 20) db.out_channels b)
    ∧ (db.flag < 2 → DownBlock.fwd env si db x t =
        (ResidualBlock.fwd env si 0 db.res x t).bind fun a =>
        MLP.fwd env si 10 ⟨db.out_channels⟩ a)
    ∧ ub.res.in_channels = ub.in_channels + ub.out_channels
    ∧ (ub.flag1 = 0 → UpBlock.fwd env si ub y t = ResidualBlock.fwd env si 0 ub.res y t)
    ∧ (ub.flag1 ≠ 0 → 2 ≤ ub.flag2 → UpBlock.fwd env si ub y t =
        (ResidualBlock.fwd env si 0 ub.res y t).bind fun a =>
        (MLP.fwd env si 10 ⟨ub.out_channels⟩ a).bind fun b =>
        env.stripformer (si.1, si.2, 20) ub.out_channels b)
    ∧ (ub.flag1 ≠ 0 → ub.flag2 < 2 → UpBlock.fwd env si ub y t =
        (ResidualBlock.fwd env si 0 ub.res y t).bind fun a =>
        MLP.fwd env si 10 ⟨ub.out_channels⟩ a) := by
  refine ⟨?_, ?_, rfl, ?_, ?_, ?_⟩
  · intro h
    simp [DownBlock.fwd, if_pos h]
  · intro h
    simp [DownBlock.fwd, if_neg (by omega : ¬ 2 ≤ db.flag)]
  · intro h
    simp [UpBlock.fwd, h]
  · intro h1 h2
    simp [UpBlock.fwd, h1, h2, if_pos (And.intro h1 h2)]
  · intro h1 h2
    simp [UpBlock.fwd, h1, if_neg (by omega : ¬ 2 ≤ ub.flag2)]

/-- Witness for C7 on a DownBlock with depth flag 2 (attention active). -/
theorem down_up_block_gating_witness :
    2 ≤ (⟨32, 64, 128, 2, false⟩ : DownBlock).flag
    ∧ DownBlock.fwd shapeEnv (2, 0) ⟨32, 64, 128, 2, false⟩ [1, 32, 4, 4] none =
        ((ResidualBlock.fwd shapeEnv (2, 0) 0 (DownBlock.res ⟨32, 64, 128, 2, false⟩)
            [1, 32, 4, 4] none).bind fun a =>
         (MLP.fwd shapeEnv (2, 0) 10 ⟨(⟨32, 64, 128, 2, false⟩ : DownBlock).out_channels⟩
            a).bind fun b =>
         shapeEnv.stripformer (((2, 0) : ℕ × ℕ).1, ((2, 0) : ℕ × ℕ).2, 20)
           (⟨32, 64, 128, 2, false⟩ : DownBlock).out_channels b) :=
  ⟨by decide,
    (down_up_block_gating shapeEnv (2, 0) ⟨32, 64, 128, 2, false⟩
      ⟨32, 32, 128, 0, 0, false⟩ [1, 32, 4, 4] [1, 32, 4, 4] none).1 (by decide)⟩

/-- C8: the MLP mixer computes conv → reshape to per-position channel vectors
→ LayerNorm → Linear (expand ×2) → ReLU → Linear (contract) → LayerNorm →
reshape back → the same conv again (same layer id `base`) → plus the original
input; and in the shape semantics its output shape equals its input shape for
every batch, channel count, and non-empty spatial extent. -/
theorem mlp_mixer_structure_and_shape :
    (∀ (T : Type) (env : Env T) (si : ℕ × ℕ) (base : ℕ) (m : MLP) (x : T),
      MLP.fwd env si base m x =
        (env.conv2d (si.1, si.2, base) m.embedding_size m.embedding_size 3 1 1 1 x).bind fun h1 =>
        (env.toSeq h1).bind fun h2 =>
        (env.layerNorm (si.1, si.2, base + 1) m.embedding_size h2).bind fun h3 =>
        (env.linear (si.1, si.2, base + 2) m.embedding_size (2 * m.embedding_size) h3).bind fun h4 =>
        (env.relu h4).bind fun h5 =>
        (env.linear (si.1, si.2, base + 3) (2 * m.embedding_size) m.embedding_size h5).bind fun h6 =>
        (env.layerNorm (si.1, si.2, base + 4) m.embedding_size h6).bind fun h7 =>
        (env.toSpatialOf x h7).bind fun h8 =>
        (env.conv2d (si.1, si.2, base) m.embedding_size m.embedding_size 3 1 1 1 h8).bind fun h9 =>
        env.add h9 x)
    ∧ ∀ (B C H W : ℕ) (si : ℕ × ℕ) (base : ℕ), 1 ≤ H → 1 ≤ W →
        MLP.fwd shapeEnv si base ⟨C⟩ [B, C, H, W] = some [B, C, H, W] := by
  refine ⟨fun _ _ _ _ _ _ => rfl, ?_⟩
  intro B C H W si base hH hW
  have hc := conv2dShape_pad_eq_dilation C B H W 1 hH hW
  simp [MLP.fwd, shapeEnv, hc, toSeqShape, layerNormShape, linearShape,
    toSpatialOfShape, broadcastShape_self]

/-- Witness for C8 on a [2,16,3,5] input. -/
theorem mlp_mixer_structure_and_shape_witness :
    ((1 : ℕ) ≤ 3 ∧ (1 : ℕ) ≤ 5)
    ∧ MLP.fwd shapeEnv (2, 0) 10 ⟨16⟩ [2, 16, 3, 5] = some [2, 16, 3, 5] :=
  ⟨⟨by decide, by decide⟩,
    mlp_mixer_structure_and_shape.2 2 16 3 5 (2, 0) 10 (by decide) (by decide)⟩

/-- C9: `Downsample` maps [B,C,H,W] to [B,C,H/2,W/2] for positive even H and W
(3×3 kernel, stride 2, padding 1), `Upsample` maps [B,C,H,W] to [B,C,2H,2W]
(4×4 transposed kernel, stride 2, padding 1), and applying Downsample then
Upsample to a [B,C,64,64] tensor returns a [B,C,64,64] tensor. -/
theorem down_up_sample_shape (B C H W : ℕ) (hH : 0 < H) (hW : 0 < W)
    (hHe : 2 ∣ H) (hWe : 2 ∣ W) :
    Downsample.fwd shapeEnv (2, 0) ⟨C⟩ [B, C, H, W] none = some [B, C, H / 2, W / 2]
    ∧ Upsample.fwd shapeEnv (3, 0) ⟨C⟩ [B, C, H, W] none = some [B, C, 2 * H, 2 * W]
    ∧ (Downsample.fwd shapeEnv (2, 0) ⟨C⟩ [B, C, 64, 64] none).bind
        (fun y => Upsample.fwd shapeEnv (3, 0) ⟨C⟩ y none) = some [B, C, 64, 64] := by
  have d64 : conv2dShape C C 3 2 1 1 [B, C, 64, 64] = some [B, C, 32, 32] := by
    simp only [conv2dShape]
    rw [if_pos ⟨trivial, by omega, by omega, by omega, by omega, by omega⟩]
  have u32 : convT2dShape C C 4 2 1 [B, C, 32, 32] = some [B, C, 64, 64] := by
    simp only [convT2dShape]
    rw [if_pos ⟨trivial, by omega, by omega, by omega, by omega⟩]
  refine ⟨?_, ?_, ?_⟩
  · show conv2dShape C C 3 2 1 1 [B, C, H, W] = some [B, C, H / 2, W / 2]
    simp only [conv2dShape]
    rw [if_pos ⟨trivial, by omega, by omega, by omega, by omega, by omega⟩]
    have e1 : (H + 2 * 1 - (1 * (3 - 1) + 1)) / 2 + 1 = H / 2 := by omega
    have e2 : (W + 2 * 1 - (1 * (3 - 1) + 1)) / 2 + 1 = W / 2 := by omega
    rw [e1, e2]
  · show convT2dShape C C 4 2 1 [B, C, H, W] = some [B, C, 2 * H, 2 * W]
    simp only [convT2dShape]
    rw [if_pos ⟨trivial, by omega, by omega, by omega, by omega⟩]
    have e1 : (H - 1) * 2 + 4 - 2 * 1 = 2 * H := by omega
    have e2 : (W - 1) * 2 + 4 - 2 * 1 = 2 * W := by omega
    rw [e1, e2]
  · show (conv2dShape C C 3 2 1 1 [B, C, 64, 64]).bind
        (fun y => convT2dShape C C 4 2 1 y) = some [B, C, 64, 64]
    rw [d64, Option.some_bind, u32]

/-- Witness for C9 at B=2, C=3, H=W=64. -/
theorem down_up_sample_shape_witness :
    ((0 : ℕ) < 64 ∧ (2 : ℕ) ∣ 64)
    ∧ Downsample.fwd shapeEnv (2, 0) ⟨3⟩ [2, 3, 64, 64] none = some [2, 3, 64 / 2, 64 / 2] :=
  ⟨⟨by decide, by decide⟩,
    (down_up_sample_shape 2 3 64 64 (by decide) (by decide) (by decide) (by decide)).1⟩
